import Mathlib

/-!
Verification of the order-extraction core of a browser extension that scrapes
purchase orders from a shopping site.  The definitions below are a shallow
embedding of the TypeScript sources:

* `src/services/DataParser.ts`      (namespace `DataParser` below)
* `src/services/OrderService.ts`    (namespace `OrderService` below)
* `src/shared/content-constants.ts` (the regex patterns, embedded as
  hand-compiled matchers over `List Char` with JavaScript regex semantics)
* `src/shared/walmart-extractor.ts` (namespace `Extractor` below)

JavaScript regexes are embedded pattern by pattern.  Conventions used
throughout: a pattern of the shape `X.*$` (no `m` flag, no `s` flag) matches
at a position exactly when `X` matches there and every character from the end
of `X` to the end of the input is accepted by `.` (so no `\n`, `\r`,
U+2028, U+2029); hence a `replace(pat, "")` for such an end-anchored pattern
truncates the string at the leftmost position where the pattern matches.
Numbers are modelled as `ℚ`; the concrete price strings the code manipulates
are exact decimals, and `parseFloat` is embedded accordingly.
-/

/-! ### JavaScript character classes and string primitives -/

/-- The whitespace set of JS `\s` (and of `String.prototype.trim`). -/
def isJsSpace (c : Char) : Bool :=
  let n := c.toNat
  n = 9 || n = 10 || n = 11 || n = 12 || n = 13 || n = 32 || n = 160 ||
    n = 5760 || (8192 ≤ n && n ≤ 8202) || n = 8232 || n = 8233 ||
    n = 8239 || n = 8287 || n = 12288 || n = 65279

/-- JS `\d`, i.e. `[0-9]`. -/
def isDigitCh (c : Char) : Bool :=
  48 ≤ c.toNat && c.toNat ≤ 57

/-- JS `[a-z]` under the `i` flag: any ASCII letter. -/
def isAsciiLetter (c : Char) : Bool :=
  (65 ≤ c.toNat && c.toNat ≤ 90) || (97 ≤ c.toNat && c.toNat ≤ 122)

/-- Characters matched by `.` in a JS regex without the `s` flag. -/
def isDotChar (c : Char) : Bool :=
  !(c.toNat = 10 || c.toNat = 13 || c.toNat = 8232 || c.toNat = 8233)

/-- The class `[\d.,]` of `CLEANUP.PRICE_END` and of `WAS_PRICE`. -/
def isPriceChar (c : Char) : Bool := isDigitCh c || c = '.' || c = ','

/-- The class `[\d,]` of the price-capture groups (`PATTERNS.PRICE` etc.). -/
def isDigitComma (c : Char) : Bool := isDigitCh c || c = ','

/-- ASCII lower-casing on code points, the canonicalisation the `i` flag
performs on the ASCII literals appearing in the embedded patterns. -/
def lowerNat (n : Nat) : Nat := if 65 ≤ n ∧ n ≤ 90 then n + 32 else n

/-- Case-insensitive character comparison (`i` flag). -/
def charCI (a b : Char) : Bool := lowerNat a.toNat = lowerNat b.toNat

/-- ASCII lower-casing of a character (`String.prototype.toLowerCase` on the
ASCII keys the fuzzy search inspects). -/
def toLowerCh (c : Char) : Char :=
  if 65 ≤ c.toNat ∧ c.toNat ≤ 90 then Char.ofNat (c.toNat + 32) else c

/-- `String.prototype.toLowerCase` (ASCII part). -/
def toLowerStr (s : String) : String := ⟨s.data.map toLowerCh⟩

/-- Match a literal pattern string case-insensitively at the head of the
input (how the engine consumes a plain literal under the `i` flag); returns
the rest of the input on success. -/
def stripCI : List Char → List Char → Option (List Char)
  | [], l => some l
  | _ :: _, [] => none
  | p :: ps, c :: cs => if charCI c p then stripCI ps cs else none

/-- `String.prototype.trim`. -/
def trimList (l : List Char) : List Char :=
  ((l.dropWhile isJsSpace).reverse.dropWhile isJsSpace).reverse

/-- `String.prototype.includes`: `containsSub hay pat` is `hay.includes(pat)`. -/
def containsSub : List Char → List Char → Bool
  | [], pat => pat.isEmpty
  | c :: cs, pat => pat.isPrefixOf (c :: cs) || containsSub cs pat

/-- `replace(/\s+/g, " ")`: every maximal whitespace run becomes one space. -/
def collapseWs : List Char → List Char
  | [] => []
  | c :: cs =>
    let rest := collapseWs cs
    if isJsSpace c then
      match rest with
      | ' ' :: r => ' ' :: r
      | r => ' ' :: r
    else c :: rest

/-- Numeric value of a digit string (`parseInt` on an all-digit capture). -/
def digitsToNat (l : List Char) : Nat :=
  l.foldl (fun a c => a * 10 + (c.toNat - 48)) 0

/-- Value of the fractional digit block `l` (digits after the dot). -/
def fracVal (l : List Char) : ℚ :=
  (digitsToNat l : ℚ) / ((10 : ℚ) ^ l.length)

/-- JS `parseFloat` restricted to strings of digits and dots (all that the
price parsers ever feed it): an optional integer part, then an optional
fractional part, junk after the first malformed character ignored; `none`
is `NaN`. -/
def parseFloatQ (l : List Char) : Option ℚ :=
  let ip := l.takeWhile isDigitCh
  if ip.isEmpty then
    match l with
    | '.' :: r =>
      let fp := r.takeWhile isDigitCh
      if fp.isEmpty then none else some (fracVal fp)
    | _ => none
  else
    match l.drop ip.length with
    | '.' :: r => some ((digitsToNat ip : ℚ) + fracVal (r.takeWhile isDigitCh))
    | _ => some ((digitsToNat ip : ℚ))

/-- JS `parseFloat` on digits/dots/minus strings: an optional leading sign. -/
def parseFloatSigned (l : List Char) : Option ℚ :=
  match l with
  | '-' :: r => (parseFloatQ r).map Neg.neg
  | _ => parseFloatQ l

/-- Leftmost-match driver: scan positions left to right, return the first
position's result where the position matcher `f` succeeds (none of the
embedded patterns can match at the empty suffix). -/
def findFirstMap {α : Type} (f : List Char → Option α) : List Char → Option α
  | [] => none
  | c :: cs =>
    match f (c :: cs) with
    | some a => some a
    | none => findFirstMap f cs

/-- `replace(pat, "")` for an end-anchored pattern (`… .*$`): the string is
truncated at the leftmost position where the position predicate `p` holds
(the match always extends to the end of the input). -/
def scanStrip (p : List Char → Bool) : List Char → List Char
  | [] => []
  | c :: cs => if p (c :: cs) then [] else c :: scanStrip p cs

/-! ### The `PATTERNS.CLEANUP` position matchers (content-constants.ts) -/

/-- After the `Qty` literal: `\s+\d+.*$`. -/
def qtyNumTail (r : List Char) : Bool :=
  let ws := r.takeWhile isJsSpace
  if ws.isEmpty then false
  else
    let r2 := r.drop ws.length
    let ds := r2.takeWhile isDigitCh
    if ds.isEmpty then false else (r2.drop ds.length).all isDotChar

/-- A case-insensitive literal followed by `\s+\d+.*$`. -/
def litThenQtyTail (pat l : List Char) : Bool :=
  match stripCI pat l with
  | some r => qtyNumTail r
  | none => false

/-- `(Shopped)?Qty\s+\d+.*$` at the current position (greedy option first). -/
def shoppedQtyCore (l : List Char) : Bool :=
  litThenQtyTail "ShoppedQty".data l || litThenQtyTail "Qty".data l

/-- `CLEANUP.SHOPPED_QTY = /\s*(Shopped)?Qty\s+\d+.*$/i` at a position: the
leading `\s*` lets the match start anywhere inside a whitespace run whose
end reaches the core. -/
def shoppedQtyAt : List Char → Bool
  | [] => false
  | c :: cs => shoppedQtyCore (c :: cs) || (isJsSpace c && shoppedQtyAt cs)

/-- A case-insensitive literal followed by `.*$`. -/
def litToEnd (pat l : List Char) : Bool :=
  match stripCI pat l with
  | some r => r.all isDotChar
  | none => false

/-- `CLEANUP.MULTIPACK = /Multipack Quantity:.*$/gi` at a position (the `g`
flag is irrelevant: any match runs to the end of the input). -/
def multipackAt (l : List Char) : Bool :=
  litToEnd "Multipack Quantity:".data l

/-- `CLEANUP.PRICE_END = /\$[\d.,]+.*$/i` at a position. -/
def priceEndAt : List Char → Bool
  | [] => false
  | c :: r =>
    c = '$' &&
      (let run := r.takeWhile isPriceChar
       !run.isEmpty && (r.drop run.length).all isDotChar)

/-- After `¢/` in `CLEANUP.CENTS_UNIT`: `[a-z\s]+.*$` — some non-empty class
run followed by dot-characters up to the end (the class may contain newline
characters, so the split is existential). -/
def centsTailOk : List Char → Bool
  | [] => false
  | c :: cs => (isAsciiLetter c || isJsSpace c) && (cs.all isDotChar || centsTailOk cs)

/-- `CLEANUP.CENTS_UNIT = /[\d.]+¢\/[a-z\s]+.*$/i` at a position. -/
def centsAt (l : List Char) : Bool :=
  let run := l.takeWhile (fun c => isDigitCh c || c = '.')
  if run.isEmpty then false
  else
    match l.drop run.length with
    | c :: '/' :: r2 => c = '¢' && centsTailOk r2
    | _ => false

/-- `CLEANUP.WEIGHT_ADJUSTED = /Weight-adjusted.*$/i` at a position. -/
def weightAdjustedAt (l : List Char) : Bool :=
  litToEnd "Weight-adjusted".data l

/-- `CLEANUP.COUNT_INFO = /Count:.*$/i` at a position. -/
def countAt (l : List Char) : Bool :=
  litToEnd "Count:".data l

/-- `CLEANUP.WAS_PRICE = /Was\s+\$[\d.,]+/gi` at a position: returns the
length of the match. -/
def wasMatchAt (l : List Char) : Option Nat :=
  match stripCI "Was".data l with
  | none => none
  | some r1 =>
    let ws := r1.takeWhile isJsSpace
    if ws.isEmpty then none
    else
      match r1.drop ws.length with
      | '$' :: r2 =>
        let run := r2.takeWhile isPriceChar
        if run.isEmpty then none
        else some (3 + ws.length + 1 + run.length)
      | _ => none

/-- Global `replace(/Was\s+\$[\d.,]+/gi, "")`: remove every (leftmost-first,
non-overlapping) occurrence.  Fuel-indexed so that the kernel can evaluate
it; each step consumes at least one character, so `l.length` fuel is always
enough. -/
def wasReplAllFuel : Nat → List Char → List Char
  | 0, l => l
  | _ + 1, [] => []
  | fuel + 1, c :: cs =>
    match wasMatchAt (c :: cs) with
    | some n => wasReplAllFuel fuel ((c :: cs).drop n)
    | none => c :: wasReplAllFuel fuel cs

def wasReplAll (l : List Char) : List Char := wasReplAllFuel l.length l

/-! ### Text-pattern matchers (PATTERNS in content-constants.ts) -/

/-- Largest `m` such that positions `m-2, m-1` of the argument hold two
consecutive digits (a pair heading the list counts here; the wrappers below
run this on the *tail* of the class run, so that the mandatory `[\d,]+`
component always keeps at least one character). -/
def twoDigitEndAux : List Char → Option Nat
  | c1 :: c2 :: rest =>
    (match twoDigitEndAux (c2 :: rest) with
     | some m => some (m + 1)
     | none => if isDigitCh c1 && isDigitCh c2 then some 2 else none)
  | _ => none

/-- Maximal `m ≥ 3` such that positions `m-2, m-1` of the class run hold two
consecutive digits: the backtracking of `[\d,]+` against a trailing `\d{2}`
when no decimal point follows the run.  `[\d,]+` must consume at least one
character, so a digit pair heading the run is no match — `"$99"` does not
match `PATTERNS.PRICE`. -/
def bestTwoDigit : List Char → Option Nat
  | _ :: rest => (twoDigitEndAux rest).map (· + 1)
  | [] => none

/-- All-candidates version of `twoDigitEndAux`, lengths in decreasing
order. -/
def twoDigitLensAux : List Char → List Nat
  | c1 :: c2 :: rest =>
    ((twoDigitLensAux (c2 :: rest)).map (· + 1)) ++
      (if isDigitCh c1 && isDigitCh c2 then [2] else [])
  | _ => []

/-- All the candidate match lengths (each `≥ 3`) of `[\d,]+\.?\d{2}`
without a decimal point, in the engine's backtracking order (longest
first); as in `bestTwoDigit`, the digit pair may not head the run. -/
def twoDigitLens : List Char → List Nat
  | _ :: rest => (twoDigitLensAux rest).map (· + 1)
  | [] => []

/-- First (greedy) match of the capture `([\d,]+\.?\d{2})` at the current
position; the capture equals the consumed characters.  Greedy order: the
whole digit/comma run followed by `.dd` if possible, otherwise the longest
run prefix ending in two digits. -/
def priceNumAt (l : List Char) : Option (List Char) :=
  let run := l.takeWhile isDigitComma
  if run.isEmpty then none
  else
    match l.drop run.length with
    | '.' :: d1 :: d2 :: _ =>
      if isDigitCh d1 && isDigitCh d2 then some (run ++ ['.', d1, d2])
      else (bestTwoDigit run).map (fun m => run.take m)
    | _ => (bestTwoDigit run).map (fun m => run.take m)

/-- All candidate captures of `([\d,]+\.?\d{2})` at the current position in
backtracking order (used when the pattern continues after the capture). -/
def priceNumCandidates (l : List Char) : List (List Char) :=
  let run := l.takeWhile isDigitComma
  if run.isEmpty then []
  else
    (match l.drop run.length with
     | '.' :: d1 :: d2 :: _ =>
       if isDigitCh d1 && isDigitCh d2 then [run ++ ['.', d1, d2]] else []
     | _ => []) ++
    (twoDigitLens run).map (fun m => run.take m)

/-- `\$\s*([\d,]+\.?\d{2})` starting at `r` (`r` must start with `$`). -/
def dollarThenPrice (r : List Char) : Option (List Char) :=
  match r with
  | '$' :: r1 => priceNumAt (r1.drop ((r1.takeWhile isJsSpace).length))
  | _ => none

/-- `PATTERNS.ORDER_TOTAL = /(?:Total|Order Total)\s*\$\s*([\d,]+\.?\d{2})/i`
at a position; returns the capture. -/
def orderTotalAt (l : List Char) : Option (List Char) :=
  match (match stripCI "Total".data l with
         | some r => some r
         | none => stripCI "Order Total".data l) with
  | some r => dollarThenPrice (r.drop ((r.takeWhile isJsSpace).length))
  | none => none

/-- First alternative pattern `/\$\s*([\d,]+\.?\d{2})\s*(?:total|Total)/i`
of `extractTotalFromText`: the `total` literal after the capture forces
backtracking over the capture candidates. -/
def totalAlt1At (l : List Char) : Option (List Char) :=
  match l with
  | '$' :: r1 =>
    let r2 := r1.drop ((r1.takeWhile isJsSpace).length)
    (priceNumCandidates r2).findSome? (fun cap =>
      let rest := r2.drop cap.length
      match stripCI "total".data (rest.drop ((rest.takeWhile isJsSpace).length)) with
      | some _ => some cap
      | none => none)
  | _ => none

/-- Second alternative `/(?:total|Total)\s*:\s*\$\s*([\d,]+\.?\d{2})/i`. -/
def totalAlt2At (l : List Char) : Option (List Char) :=
  match stripCI "total".data l with
  | some r =>
    let r1 := r.drop ((r.takeWhile isJsSpace).length)
    match r1 with
    | ':' :: r2 => dollarThenPrice (r2.drop ((r2.takeWhile isJsSpace).length))
    | _ => none
  | none => none

/-- After the `Total` literal of the third alternative: `\s+\$\s*(cap)`. -/
def totalTail3 (r : List Char) : Option (List Char) :=
  let ws := r.takeWhile isJsSpace
  if ws.isEmpty then none
  else dollarThenPrice (r.drop ws.length)

/-- Third alternative `/(?:Grand\s+)?Total\s+\$\s*([\d,]+\.?\d{2})/i`
(greedy optional `Grand\s+` first, then without). -/
def totalAlt3At (l : List Char) : Option (List Char) :=
  (match stripCI "Grand".data l with
   | some r =>
     let ws := r.takeWhile isJsSpace
     if ws.isEmpty then none
     else
       match stripCI "Total".data (r.drop ws.length) with
       | some r2 => totalTail3 r2
       | none => none
   | none => none).orElse (fun _ =>
    match stripCI "Total".data l with
    | some r => totalTail3 r
    | none => none)

/-- `PATTERNS.PRICE = /\$\s*([\d,]+\.?\d{2})/g` at a position: capture and
total match length. -/
def priceMatchAt (l : List Char) : Option (List Char × Nat) :=
  match l with
  | '$' :: r1 =>
    let ws := r1.takeWhile isJsSpace
    match priceNumAt (r1.drop ws.length) with
    | some cap => some (cap, 1 + ws.length + cap.length)
    | none => none
  | _ => none

/-- `matchAll(PATTERNS.PRICE)`: the captures of all non-overlapping matches,
left to right (fuel-indexed, each match consumes at least one character). -/
def priceCapturesFuel : Nat → List Char → List (List Char)
  | 0, _ => []
  | _ + 1, [] => []
  | fuel + 1, c :: cs =>
    match priceMatchAt (c :: cs) with
    | some (cap, n) => cap :: priceCapturesFuel fuel ((c :: cs).drop n)
    | none => priceCapturesFuel fuel cs

def priceCaptures (l : List Char) : List (List Char) := priceCapturesFuel l.length l

/-- `PATTERNS.QUANTITY = /(?:Qty|Quantity)[\s:]*(\d+)/i`: the part after the
literal. -/
def qtyDigitsAfter (r : List Char) : Option (List Char) :=
  let cls := r.takeWhile (fun c => isJsSpace c || c = ':')
  let ds := (r.drop cls.length).takeWhile isDigitCh
  if ds.isEmpty then none else some ds

/-- `PATTERNS.QUANTITY` at a position (ordered alternation `Qty` then
`Quantity`); returns the digit capture. -/
def quantityAt (l : List Char) : Option (List Char) :=
  (match stripCI "Qty".data l with
   | some r => qtyDigitsAfter r
   | none => none).orElse (fun _ =>
    match stripCI "Quantity".data l with
    | some r => qtyDigitsAfter r
    | none => none)

/-- `PATTERNS.QUANTITY_X = /^\s*(\d+)\s*x\s+/i` (anchored at the start). -/
def quantityXAt (l : List Char) : Option (List Char) :=
  let r := l.drop ((l.takeWhile isJsSpace).length)
  let ds := r.takeWhile isDigitCh
  if ds.isEmpty then none
  else
    let r2 := r.drop ds.length
    match r2.drop ((r2.takeWhile isJsSpace).length) with
    | c :: r3 =>
      if charCI c 'x' && !((r3.takeWhile isJsSpace).isEmpty) then some ds else none
    | [] => none

/-- `PATTERNS.QUANTITY_PARENS = /\(\s*(\d+)\s*\)$/` at a position (the `$`
requires the closing paren to end the input). -/
def quantityParensCore (l : List Char) : Option (List Char) :=
  match l with
  | '(' :: r =>
    let r2 := r.drop ((r.takeWhile isJsSpace).length)
    let ds := r2.takeWhile isDigitCh
    if ds.isEmpty then none
    else
      let r3 := r2.drop ds.length
      match r3.drop ((r3.takeWhile isJsSpace).length) with
      | [')'] => some ds
      | _ => none
  | _ => none

/-- `\d{4}` at the current position (the four matched digits). -/
def fourDigitsHere (r : List Char) : Option (List Char) :=
  match r with
  | a :: b :: c :: d :: _ =>
    if isDigitCh a && isDigitCh b && isDigitCh c && isDigitCh d then some [a, b, c, d]
    else none
  | _ => none

/-- `\s+\d{4}` at the current position; returns the consumed characters. -/
def wsThenYear (r : List Char) : Option (List Char) :=
  let ws := r.takeWhile isJsSpace
  if ws.isEmpty then none
  else (fourDigitsHere (r.drop ws.length)).map (fun y => ws ++ y)

/-- `,?\s+\d{4}` (greedy optional comma first). -/
def commaWsYear (r : List Char) : Option (List Char) :=
  match r with
  | ',' :: r2 =>
    (match wsThenYear r2 with
     | some t => some (',' :: t)
     | none => wsThenYear r)
  | _ => wsThenYear r

/-- `\d{1,2},?\s+\d{4}` (greedy two-digit day first, backtracking to one). -/
def dayThenYear (r : List Char) : Option (List Char) :=
  match r with
  | a :: rest =>
    if isDigitCh a then
      (match rest with
       | b :: rest2 =>
         if isDigitCh b then (commaWsYear rest2).map (fun t => a :: b :: t) else none
       | [] => none).orElse (fun _ => (commaWsYear rest).map (fun t => a :: t))
    else none
  | [] => none

/-- The twelve month literals of `PATTERNS.DATE`, in alternation order. -/
def monthLits : List (List Char) :=
  [ "Jan".data, "Feb".data, "Mar".data, "Apr".data, "May".data, "Jun".data,
    "Jul".data, "Aug".data, "Sep".data, "Oct".data, "Nov".data, "Dec".data ]

/-- `PATTERNS.DATE
= /(?:Jan|Feb|Mar|Apr|May|Jun|Jul|Aug|Sep|Oct|Nov|Dec)[a-z]*\s+\d{1,2},?\s+\d{4}/i`
at a position; returns `match[0]` (the whole matched text, original case). -/
def dateMatchAt (l : List Char) : Option (List Char) :=
  monthLits.findSome? (fun m =>
    match stripCI m l with
    | some r =>
      let letters := r.takeWhile isAsciiLetter
      let r2 := r.drop letters.length
      let ws := r2.takeWhile isJsSpace
      if ws.isEmpty then none
      else
        (dayThenYear (r2.drop ws.length)).map (fun t =>
          (l.take m.length) ++ letters ++ ws ++ t)
    | none => none)

/-! ### The JavaScript value universe seen by the parsers -/

/-- Untyped JS values as the parsers receive them (JSON data plus
`undefined` for absent properties). -/
inductive Value where
  | vUndefined : Value
  | vNull : Value
  | vBool : Bool → Value
  | vNum : ℚ → Value
  | vStr : String → Value
  | vArr : List Value → Value
  | vObj : List (String × Value) → Value

/-- JS truthiness. -/
def truthy : Value → Bool
  | .vUndefined => false
  | .vNull => false
  | .vBool b => b
  | .vNum q => if q = 0 then false else true
  | .vStr s => if s = "" then false else true
  | .vArr _ => true
  | .vObj _ => true

/-- `typeof v === "object"` (true for objects, arrays and `null`). -/
def isObjectType : Value → Bool
  | .vNull => true
  | .vArr _ => true
  | .vObj _ => true
  | _ => false

/-- Objects and arrays: `typeof v === "object" && v !== null`. -/
def isObjLike : Value → Bool
  | .vArr _ => true
  | .vObj _ => true
  | _ => false

/-- Decimal rendering of a natural number (fuel-indexed so that the kernel
can evaluate it). -/
def natDigitsAux : Nat → Nat → List Char
  | 0, _ => []
  | fuel + 1, n =>
    if n < 10 then [Char.ofNat (48 + n)]
    else natDigitsAux fuel (n / 10) ++ [Char.ofNat (48 + n % 10)]

def natToDecimal (n : Nat) : String := ⟨natDigitsAux (n + 1) n⟩

/-- Canonical decimal index strings (`"0"`, `"17"`, … — no leading zeros),
the array keys JS exposes. -/
def isCanonicalIndex (l : List Char) : Bool :=
  match l with
  | [] => false
  | c :: cs => isDigitCh c && (l.all isDigitCh) && (c ≠ '0' || cs.isEmpty)

/-- Property access `v[k]`, yielding `undefined` when absent.  Array
elements are reachable under their canonical decimal index strings; string
character/`length` properties are not modelled (no embedded parser looks
up such a key on a string). -/
def propGet : Value → String → Value
  | .vObj fs, k => ((fs.find? (fun p => p.1 == k)).map Prod.snd).getD Value.vUndefined
  | .vArr xs, k =>
    if isCanonicalIndex k.data then xs.getD (digitsToNat k.data) Value.vUndefined
    else Value.vUndefined
  | _, _ => Value.vUndefined

/-- `Object.keys`. -/
def keysOf : Value → List String
  | .vObj fs => fs.map Prod.fst
  | .vArr xs => (List.range xs.length).map natToDecimal
  | _ => []

namespace DataParser

/-!
DataParser (src/services/DataParser.ts)
-/

/-- `DataParser.getNestedValue`: walk a key path, `undefined` as soon as the
current value is not a non-null object. -/
def getNestedValue : Value → List String → Value
  | v, [] => v
  | v, k :: ks =>
    match v with
    | .vArr _ => getNestedValue (propGet v k) ks
    | .vObj _ => getNestedValue (propGet v k) ks
    | _ => .vUndefined

/-- `DataParser.extractStringField`: first candidate field bound to a
non-empty string. -/
def extractStringField (obj : Value) : List String → Option String
  | [] => none
  | f :: fs =>
    match propGet obj f with
    | .vStr s => if 0 < s.length then some s else extractStringField obj fs
    | _ => extractStringField obj fs

/-- `DataParser.parsePrice`: strip everything but digits and dots, then
`parseFloat`, with `NaN ↦ 0`. -/
def parsePriceL (l : List Char) : ℚ :=
  match parseFloatQ (l.filter (fun c => isDigitCh c || c = '.')) with
  | some q => q
  | none => 0

def parsePrice (s : String) : ℚ := parsePriceL s.data

/-- `DataParser.extractNumberField`: first candidate field bound to a
number, or to a string whose `parsePrice` is positive. -/
def extractNumberField (obj : Value) : List String → Option ℚ
  | [] => none
  | f :: fs =>
    match propGet obj f with
    | .vNum q => some q
    | .vStr s =>
      let parsed := parsePrice s
      if 0 < parsed then some parsed else extractNumberField obj fs
    | _ => extractNumberField obj fs

/-- The items of one parsed order (`ParsedItem`; `parseItemObject` always
sets a quantity, defaulting to 1). -/
structure ParsedItem where
  name : String
  price : Option ℚ
  quantity : ℚ
  productUrl : Option String
deriving DecidableEq, Repr

/-- A validated order (`Order` of OrderService, as produced by the
parsers). -/
structure Order where
  orderNumber : String
  orderDate : String
  orderTotal : Option ℚ
  tax : Option ℚ
  deliveryCharges : Option ℚ
  tip : Option ℚ
  items : Option (List ParsedItem)
deriving DecidableEq, Repr

/-- The intermediate result of `parseOrderObject` (`ParsedOrder`). -/
structure ParsedOrder where
  orderNumber : Option String
  orderDate : Option String
  orderTotal : Option ℚ
  tax : Option ℚ
  deliveryCharges : Option ℚ
  tip : Option ℚ
  items : List ParsedItem
deriving DecidableEq, Repr

/-- `DataParser.parseItemObject`. -/
def parseItemObject (item : Value) : Option ParsedItem :=
  if isObjLike item then
    match extractStringField item ["name", "productName", "title", "description"] with
    | none => none
    | some name =>
      if name.length < 3 then none
      else
        some ⟨name,
          extractNumberField item ["price", "unitPrice", "itemPrice", "amount"],
          (match extractNumberField item ["quantity", "qty", "count"] with
           | some q => if q = 0 then 1 else q   -- `|| 1` on a falsy 0
           | none => 1),
          extractStringField item ["productUrl", "url", "link", "href"]⟩
  else none

/-- `DataParser.extractItems`: first of the item container fields bound to
an array, its elements parsed and the failures dropped. -/
def extractItems (obj : Value) : List ParsedItem :=
  match ["items", "lineItems", "products", "orderItems"].findSome? (fun f =>
      match propGet obj f with
      | .vArr xs => some xs
      | _ => none) with
  | some xs => xs.filterMap parseItemObject
  | none => []

/-- `DataParser.parseOrderObject`. -/
def parseOrderObject (obj : Value) : ParsedOrder :=
  ⟨extractStringField obj
      ["orderNumber", "orderId", "id", "number", "orderNum", "purchaseOrderId",
       "transactionId", "orderIdentifier", "confirmationNumber"],
   extractStringField obj
      ["orderDate", "date", "createdAt", "placedDate", "purchaseDate",
       "orderPlacedDate", "submittedDate", "transactionDate", "created"],
   extractNumberField obj
      ["orderTotal", "total", "grandTotal", "amount", "totalAmount",
       "orderAmount", "finalTotal", "totalPrice", "paymentTotal"],
   extractNumberField obj ["tax", "taxAmount", "taxes", "totalTax"],
   extractNumberField obj
      ["deliveryCharges", "shipping", "shippingCost", "shippingAmount", "deliveryFee"],
   extractNumberField obj ["tip", "tipAmount", "gratuity"],
   extractItems obj⟩

/-- `DataParser.parseOrderArray`: keep the non-null objects whose parse has
a truthy order number and date. -/
def parseOrderArray (orders : List Value) : List Order :=
  orders.filterMap (fun o =>
    if isObjLike o then
      let p := parseOrderObject o
      match p.orderNumber, p.orderDate with
      | some n, some d =>
        if n ≠ "" && d ≠ "" then
          some ⟨n, d, p.orderTotal, p.tax, p.deliveryCharges, p.tip, some p.items⟩
        else none
      | _, _ => none
    else none)

/-- The candidate key paths of `parseReduxState`, in priority order. -/
def reduxPossiblePaths : List (List String) :=
  [["orders", "data"], ["account", "orders"], ["orderHistory", "orders"],
   ["data", "orders"], ["props", "pageProps", "initialData", "orders"]]

/-- The `data && Array.isArray(data)` probe of the path loop (arrays are
truthy, so the truthiness test is subsumed). -/
def reduxPathProbe (state : Value) (path : List String) : Option (List Value) :=
  match getNestedValue state path with
  | .vArr xs => some xs
  | _ => none

/-- `DataParser.parseReduxState`: the first path whose value is an array is
parsed and returned immediately (even when the parse keeps no order). -/
def parseReduxState (state : Value) : Option (List Order) :=
  match reduxPossiblePaths.findSome? (reduxPathProbe state) with
  | some xs => some (parseOrderArray xs)
  | none => none

/-- The candidate key paths of `parseNextData`, in priority order. -/
def nextPossiblePaths : List (List String) :=
  [["pageProps", "orders"],
   ["pageProps", "initialData", "orders"],
   ["pageProps", "data", "orders"],
   ["pageProps", "initialData", "data", "orders"],
   ["pageProps", "orderList"],
   ["pageProps", "orderHistory"],
   ["pageProps", "purchaseHistory"],
   ["pageProps", "initialReduxState", "orders"],
   ["pageProps", "initialReduxState", "orderHistory"],
   ["pageProps", "__APOLLO_STATE__"],
   ["pageProps", "initialProps", "orders"]]

def nestedArrayFields : List String := ["orders", "data", "items", "results", "list"]

/-- `parseOrderArray` guarded by `orders.length > 0` — the only way
`parseNextData` ever returns. -/
def tryOrderArray (xs : List Value) : Option (List Order) :=
  if 0 < (parseOrderArray xs).length then some (parseOrderArray xs) else none

/-- The `if (Array.isArray(x)) { parse, return when non-empty }` step used
for nested fields and fuzzy sub-keys. -/
def tryArrayField (v : Value) : Option (List Order) :=
  match v with
  | .vArr xs => tryOrderArray xs
  | _ => none

/-- The body of the path loop of `parseNextData` for one path value: an
array is parsed directly, a (truthy) object is probed at the nested array
fields. -/
def tryDataValue (data : Value) : Option (List Order) :=
  if truthy data then
    match data with
    | .vArr xs => tryOrderArray xs
    | .vObj _ => nestedArrayFields.findSome? (fun f => tryArrayField (propGet data f))
    | _ => none
  else none

/-- The fuzzy key filter: the lower-cased key contains `order`, `purchase`
or `history`. -/
def orderLikeKey (k : String) : Bool :=
  containsSub (toLowerStr k).data "order".data ||
  containsSub (toLowerStr k).data "purchase".data ||
  containsSub (toLowerStr k).data "history".data

/-- The body of the fuzzy-key loop of `parseNextData` for one key value:
an array is parsed directly, a (truthy, non-array) object has each of its
own keys probed for an array. -/
def tryFuzzyValue (value : Value) : Option (List Order) :=
  match value with
  | .vArr xs => tryOrderArray xs
  | _ =>
    if truthy value && isObjectType value then
      (keysOf value).findSome? (fun subKey => tryArrayField (propGet value subKey))
    else none

/-- The deep `pageProps` search of `parseNextData`: the fuzzy keys of
`pageProps`, then the fuzzy keys of `pageProps.initialData`. -/
def tryPageProps (pageProps : Value) : Option (List Order) :=
  match (if 0 < ((keysOf pageProps).filter orderLikeKey).length then
          ((keysOf pageProps).filter orderLikeKey).findSome?
            (fun k => tryFuzzyValue (propGet pageProps k))
         else none) with
  | some o => some o
  | none =>
    if truthy (propGet pageProps "initialData") then
      if 0 < ((keysOf (propGet pageProps "initialData")).filter orderLikeKey).length then
        ((keysOf (propGet pageProps "initialData")).filter orderLikeKey).findSome?
          (fun k => tryArrayField (propGet (propGet pageProps "initialData") k))
      else none
    else none

/-- `DataParser.parseNextData`. -/
def parseNextData (nextData : Value) : Option (List Order) :=
  if truthy (propGet nextData "props") then
    match nextPossiblePaths.findSome?
        (fun path => tryDataValue (getNestedValue (propGet nextData "props") path)) with
    | some orders => some orders
    | none =>
      if truthy (propGet (propGet nextData "props") "pageProps") then
        tryPageProps (propGet (propGet nextData "props") "pageProps")
      else none
  else none

/-- `FILTER_KEYWORDS` of content-constants.ts. -/
def FILTER_KEYWORDS : List String := ["ReorderListsRegistries", "Lists & Registries"]

/-- `DataParser.cleanProductName`: trim, apply the `Object.values
(PATTERNS.CLEANUP)` replacements in the declaration order of
content-constants.ts — `SHOPPED_QTY`, `MULTIPACK`, `PRICE_END`,
`CENTS_UNIT`, `WEIGHT_ADJUSTED`, `COUNT_INFO`, `WAS_PRICE` — each followed
by a trim, then drop the result if it contains a filter keyword, then
collapse whitespace.  `cleanupPassDP` is the pattern loop (innermost
replacement first). -/
def cleanupPassDP (l : List Char) : List Char :=
  trimList (wasReplAll
    (trimList (scanStrip countAt
      (trimList (scanStrip weightAdjustedAt
        (trimList (scanStrip centsAt
          (trimList (scanStrip priceEndAt
            (trimList (scanStrip multipackAt
              (trimList (scanStrip shoppedQtyAt
                (trimList l))))))))))))))

def cleanProductName (s : String) : String :=
  if s = "" then ""
  else if FILTER_KEYWORDS.any (fun k => containsSub (cleanupPassDP s.data) k.data) then ""
  else ⟨trimList (collapseWs (cleanupPassDP s.data))⟩

/-- `DataParser.extractDateFromText`'s prefix cleanup
`replace(/^(?:Delivered|Placed|Order(?:ed)?)\s+on\s+/i, "")`, one
alternative with its continuation at a time.  (The `DATE` match always
starts with a month name, so on the values actually passed this is the
identity.) -/
def tryPrefixOn (word : List Char) (l : List Char) : Option (List Char) :=
  match stripCI word l with
  | some r =>
    let ws := r.takeWhile isJsSpace
    if ws.isEmpty then none
    else
      match stripCI "on".data (r.drop ws.length) with
      | some r2 =>
        let ws2 := r2.takeWhile isJsSpace
        if ws2.isEmpty then none else some (r2.drop ws2.length)
      | none => none
  | none => none

def stripDatePrefix (l : List Char) : List Char :=
  match ((tryPrefixOn "Delivered".data l).orElse (fun _ => tryPrefixOn "Placed".data l)
          |>.orElse (fun _ => tryPrefixOn "Ordered".data l)
          |>.orElse (fun _ => tryPrefixOn "Order".data l)) with
  | some r => r
  | none => l

/-- `dateStr.match(/\d{4}/)` as a Bool. -/
def hasFourConsecDigits : List Char → Bool
  | a :: b :: c :: d :: rest =>
    (isDigitCh a && isDigitCh b && isDigitCh c && isDigitCh d) ||
      hasFourConsecDigits (b :: c :: d :: rest)
  | _ => false

/-- `DataParser.extractDateFromText` (`new Date().getFullYear()` passed in
as `currentYear`). -/
def extractDateFromText (currentYear : Nat) (s : String) : Option String :=
  match findFirstMap dateMatchAt s.data with
  | none => none
  | some m0 =>
    let d1 := stripDatePrefix m0
    let d2 :=
      if hasFourConsecDigits d1 then d1
      else d1 ++ (", ").data ++ (toString currentYear).data
    some ⟨d2⟩

/-- `DataParser.extractTotalFromText`: the explicit `ORDER_TOTAL` pattern,
then the three alternative total patterns, then the largest of all
`PRICE` matches, else `undefined`. -/
def extractTotalFromText (s : String) : Option ℚ :=
  match findFirstMap orderTotalAt s.data with
  | some cap => some (parsePriceL cap)
  | none =>
  match findFirstMap totalAlt1At s.data with
  | some cap => some (parsePriceL cap)
  | none =>
  match findFirstMap totalAlt2At s.data with
  | some cap => some (parsePriceL cap)
  | none =>
  match findFirstMap totalAlt3At s.data with
  | some cap => some (parsePriceL cap)
  | none =>
  match (priceCaptures s.data).map (fun c => parsePriceL c) with
  | [] => none
  | q :: qs => some (qs.foldl max q)

/-- `DataParser.extractQuantityFromText`: `QUANTITY`, then `QUANTITY_X`,
then `QUANTITY_PARENS`, each accepted only for `0 < qty < 100`; default 1. -/
def extractQuantityFromText (s : String) : ℚ :=
  match (match findFirstMap quantityAt s.data with
         | some ds =>
           let qty := digitsToNat ds
           if 0 < qty && qty < 100 then some ((qty : ℚ)) else none
         | none => none) with
  | some q => q
  | none =>
  match (match quantityXAt s.data with
         | some ds =>
           let qty := digitsToNat ds
           if 0 < qty && qty < 100 then some ((qty : ℚ)) else none
         | none => none) with
  | some q => q
  | none =>
  match (match findFirstMap quantityParensCore s.data with
         | some ds =>
           let qty := digitsToNat ds
           if 0 < qty && qty < 100 then some ((qty : ℚ)) else none
         | none => none) with
  | some q => q
  | none => 1

end DataParser

namespace OrderService

/-!
OrderService (src/services/OrderService.ts)
-/

/-- A formatted order item (`OrderItem`). -/
structure OrderItem where
  name : String
  price : ℚ
  quantity : ℚ
  productUrl : String
deriving DecidableEq, Repr

/-- `OrderService.cleanProductName`: the same cleanup patterns, but in the
order of the local `patterns` array of OrderService.ts — the `Was` pattern
explicitly before the general price pattern — then zero-width-space
removal and whitespace normalisation. -/
def cleanupPassOS (l : List Char) : List Char :=
  trimList (scanStrip countAt
    (trimList (scanStrip weightAdjustedAt
      (trimList (scanStrip centsAt
        (trimList (scanStrip priceEndAt
          (trimList (wasReplAll
            (trimList (scanStrip multipackAt
              (trimList (scanStrip shoppedQtyAt
                (trimList l))))))))))))))

def cleanProductName (s : String) : String :=
  if s = "" then ""
  else ⟨trimList (collapseWs ((cleanupPassOS s.data).filter (fun c => c.toNat ≠ 8203)))⟩

/-- `OrderService.isValidOrder`: a non-null object whose `orderNumber` and
`orderDate` are non-empty strings. -/
def isValidOrder (v : Value) : Bool :=
  if truthy v && isObjectType v then
    (match propGet v "orderNumber" with
     | .vStr s => 0 < s.length
     | _ => false) &&
    (match propGet v "orderDate" with
     | .vStr s => 0 < s.length
     | _ => false)
  else false

/-- `OrderService.isFilteredProductName` (case-insensitive containment). -/
def isFilteredProductName (name : String) : Bool :=
  ["ReorderListsRegistries", "Lists & Registries", "Sign in", "Create account"].any
    (fun keyword => containsSub (toLowerStr name).data (toLowerStr keyword).data)

/-- `OrderService.isValidItem`: a non-null object whose `name` is a string
of length > 3 that is not a filtered keyword. -/
def isValidItem (v : Value) : Bool :=
  if truthy v && isObjectType v then
    match propGet v "name" with
    | .vStr s => 3 < s.length && !(isFilteredProductName s)
    | _ => false
  else false

/-- `OrderService.validateAndCleanOrders` (the input is already an array
here, so the `Array.isArray` guard is moot). -/
def validateAndCleanOrders (orders : List Value) : List Value :=
  orders.filter isValidOrder

/-- `OrderService.parseNumber`: keep `[0-9.-]`, `parseFloat`, `NaN ↦ 0`. -/
def parseNumber (v : Value) : ℚ :=
  match v with
  | .vNum q => q
  | .vStr s =>
    match parseFloatSigned (s.data.filter (fun c => isDigitCh c || c = '.' || c = '-')) with
    | some q => q
    | none => 0
  | _ => 0

/-- `x || ""` on a field expected to be a string (non-string truthy values
would be passed through by JS; they never arise from the validated data and
are not modelled). -/
def strOrEmpty (v : Value) : String :=
  match v with
  | .vStr s => s
  | _ => ""

/-- The per-item formatter inside `OrderService.formatItems`. -/
def formatOneItem (item : Value) : OrderItem :=
  ⟨cleanProductName (strOrEmpty (propGet item "name")),
   parseNumber (propGet item "price"),
   (let q := parseNumber (propGet item "quantity"); if q = 0 then 1 else q),
   strOrEmpty (propGet item "productUrl")⟩

/-- `OrderService.formatItems`: keep the valid items, format each. -/
def formatItems (items : List Value) : List OrderItem :=
  (items.filter isValidItem).map formatOneItem

end OrderService

namespace Extractor

/-!
WalmartContentExtractor (src/shared/walmart-extractor.ts)

`extractOrderData` reads the page through the DOM and two window globals.
The embedding keeps the two globals and the page-derived inputs as an
explicit environment; the DOM-walking private helpers
(`extractFromScriptTags`, `extractFromDOM`, `extractFromPageJSON`) appear
as their results, which is all the orchestrator inspects.
-/

/-- Everything `extractOrderData` reads from the page. -/
structure PageEnv where
  /-- `window.__WML_REDUX_INITIAL_STATE__` (`vUndefined` when absent). -/
  reduxState : Value
  /-- `window.__NEXT_DATA__` (`vUndefined` when absent). -/
  nextData : Value
  /-- result of `this.extractFromScriptTags()`. -/
  scriptTagOrders : Option (List DataParser.Order)
  /-- `window.location.pathname`. -/
  pathname : String
  /-- result of `this.extractFromDOM()` (always an array). -/
  domOrders : List DataParser.Order
  /-- result of `this.extractFromPageJSON()`. -/
  pageJsonOrders : Option (List DataParser.Order)
  /-- `document.body?.innerText || ""`. -/
  bodyText : String
  /-- `String(Date.now())` as used in `"TEST-" + Date.now()`. -/
  nowString : String
  /-- `new Date().toLocaleDateString()`. -/
  localeDateString : String

/-- `WalmartContentExtractor.extractOrderData`; `some orders` stands for
`{ orders }` and `none` for `null`. -/
def extractOrderData (env : PageEnv) : Option (List DataParser.Order) :=
  -- Try Redux state first
  match (if truthy env.reduxState then
          match DataParser.parseReduxState env.reduxState with
          | some orders => if 0 < orders.length then some orders else none
          | none => none
         else none) with
  | some o => some o
  | none =>
  -- Try Next.js data
  match (if truthy env.nextData then
          match DataParser.parseNextData env.nextData with
          | some orders => if 0 < orders.length then some orders else none
          | none => none
         else none) with
  | some o => some o
  | none =>
  -- Try script tags
  match (match env.scriptTagOrders with
         | some orders => if 0 < orders.length then some orders else none
         | none => none) with
  | some o => some o
  | none =>
  -- Try DOM extraction (only on an /orders page)
  match (if containsSub env.pathname.data "/orders".data then
          (if 0 < env.domOrders.length then some env.domOrders else none)
         else none) with
  | some o => some o
  | none =>
  -- Final fallback: any JSON data in the page
  match (match env.pageJsonOrders with
         | some orders => if 0 < orders.length then some orders else none
         | none => none) with
  | some o => some o
  | none =>
  -- Last resort: mock data when the page text mentions orders
  if containsSub env.bodyText.data "Order".data || containsSub env.bodyText.data "order".data then
    some [⟨"TEST-" ++ env.nowString, env.localeDateString, some 0, none, none, none, some []⟩]
  else none

end Extractor

/-! ### Specification-side definitions

These follow the *wording* of the specification's contracts (not the code);
they exist to be compared against the embedded code above. -/

/-- Field resolution as the specification words it for numeric fields:
the first candidate name bound to a number, or to a numeric string parsed
after stripping all characters except digits, `.` **and `-`**; unparsable
strings are treated as absent. -/
def claimNumberFieldSpec (obj : Value) (names : List String) : Option ℚ :=
  names.findSome? (fun n =>
    match propGet obj n with
    | .vNum q => some q
    | .vStr s => parseFloatSigned (s.data.filter (fun c => isDigitCh c || c = '.' || c = '-'))
    | _ => none)

/-- Field resolution for string fields, as the specification words it: the
first candidate name bound to a non-empty string. -/
def specStringField (obj : Value) (names : List String) : Option String :=
  names.findSome? (fun n =>
    match propGet obj n with
    | .vStr s => if s ≠ "" then some s else none
    | _ => none)

/-- Numeric field resolution as amended to the code's coercion: the minus
sign is also stripped, and a string is usable only when its stripped parse
is strictly positive (a number-typed value is always usable). -/
def amendedNumberFieldSpec (obj : Value) (names : List String) : Option ℚ :=
  names.findSome? (fun n =>
    match propGet obj n with
    | .vNum q => some q
    | .vStr s => if 0 < DataParser.parsePrice s then some (DataParser.parsePrice s) else none
    | _ => none)

/-- Quantity extraction as the specification words it: try the three
patterns in order, keep a match only when `0 < N < 100`, first kept match
wins, otherwise 1. -/
def quantitySpecFn (s : String) : ℚ :=
  match ([findFirstMap quantityAt s.data, quantityXAt s.data,
          findFirstMap quantityParensCore s.data].filterMap (fun o =>
            o.bind (fun ds =>
              let n := digitsToNat ds
              if 0 < n ∧ n < 100 then some n else none))).head? with
  | some n => (n : ℚ)
  | none => 1

/-! ### Claim theorems -/

/-- Claim C2 (code bug): in `DataParser.cleanProductName` the `Was $X.XX`
rule is applied *after* the trailing-dollar rule (`Object.values` of
`PATTERNS.CLEANUP` lists `WAS_PRICE` last), so the canonical input
`"Apple Was $5.99 $3.99"` is cleaned to `"Apple Was"` — the literal `Was`
survives — while `OrderService.cleanProductName`, whose local pattern array
documents and applies the intended order, yields `"Apple"`. -/
theorem C2_was_rule_after_price_rule :
    DataParser.cleanProductName "Apple Was $5.99 $3.99" = "Apple Was" ∧
    OrderService.cleanProductName "Apple Was $5.99 $3.99" = "Apple" :=
  ⟨rfl, rfl⟩

/-- Claim C8 (code bug): `PATTERNS.DATE` requires a 4-digit year, so text
with no year yields no date at all — the current-year-appending branch of
`extractDateFromText` is unreachable — while the same text with a year is
matched. -/
theorem C8_year_required_by_date_pattern :
    DataParser.extractDateFromText 2026 "Placed on January 15" = none ∧
    DataParser.extractDateFromText 2026 "Placed on January 15, 2024" = some "January 15, 2024" :=
  ⟨rfl, rfl⟩

/-- Claim C1 (code bug): when every strategy yields zero validated orders,
`extractOrderData` does *not* always return `null`: if the page body text
contains `Order` (or `order`) it fabricates a placeholder
`TEST-<Date.now()>` order; only on a page without such text is the result
`null`. -/
theorem C1_mock_order_fallback :
    Extractor.extractOrderData
        ⟨Value.vUndefined, Value.vUndefined, none, "/orders", [], none,
         "Order history", "123", "1/1/2024"⟩ =
      some [⟨"TEST-123", "1/1/2024", some 0, none, none, none, some []⟩] ∧
    Extractor.extractOrderData
        ⟨Value.vUndefined, Value.vUndefined, none, "/orders", [], none,
         "no relevant text", "123", "1/1/2024"⟩ = none :=
  ⟨rfl, rfl⟩

/-- Claim C4, counterexample: `DataParser.parsePrice` strips `-` as well
(its filter keeps only digits and `.`), so the numeric string `"-5"`
resolves to `5`, not `-5` as the claim's stripping rule prescribes. -/
theorem C4_counterexample_minus_stripped :
    DataParser.extractNumberField (Value.vObj [("amount", Value.vStr "-5")]) ["amount"] = some 5 ∧
    claimNumberFieldSpec (Value.vObj [("amount", Value.vStr "-5")]) ["amount"] = some (-5) ∧
    DataParser.extractNumberField (Value.vObj [("amount", Value.vStr "-5")]) ["amount"] ≠
      claimNumberFieldSpec (Value.vObj [("amount", Value.vStr "-5")]) ["amount"] := by
  refine ⟨rfl, rfl, ?_⟩
  decide

/-- Claim C5, counterexample: in `parseNextData` the first configured path
(`pageProps.orders`) resolves to an array, yet because that array parses to
zero validated orders the fuzzy key search *is* consulted and returns the
order found under the merely order-like key `myOrders`. -/
theorem C5_counterexample_fuzzy_consulted :
    DataParser.getNestedValue
        (propGet (Value.vObj [("props", Value.vObj [("pageProps", Value.vObj
          [("orders", Value.vArr [Value.vObj []]),
           ("myOrders", Value.vArr [Value.vObj
             [("orderNumber", Value.vStr "X1"),
              ("orderDate", Value.vStr "Jan 1, 2024")]])])])]) "props")
        ["pageProps", "orders"] = Value.vArr [Value.vObj []] ∧
    DataParser.parseNextData
        (Value.vObj [("props", Value.vObj [("pageProps", Value.vObj
          [("orders", Value.vArr [Value.vObj []]),
           ("myOrders", Value.vArr [Value.vObj
             [("orderNumber", Value.vStr "X1"),
              ("orderDate", Value.vStr "Jan 1, 2024")]])])])]) =
      some [⟨"X1", "Jan 1, 2024", none, none, none, none, some []⟩] :=
  ⟨rfl, rfl⟩

/-- Claim C9, counterexample: the filter-keyword check of
`DataParser.cleanProductName` runs *before* whitespace collapsing, so an
input whose collapsed form is exactly a filter keyword survives the first
pass and is erased by the second — the sanitizer is not idempotent. -/
theorem C9_counterexample_not_idempotent :
    DataParser.cleanProductName (DataParser.cleanProductName "Lists &  Registries") ≠
      DataParser.cleanProductName "Lists &  Registries" := by
  decide

/-- Bridge between the code's `0 < s.length` test and "non-empty". -/
theorem string_length_pos_iff (s : String) : 0 < s.length ↔ s ≠ "" := by
  cases s with
  | mk data => cases data <;> simp [String.length, String.ext_iff]

/-- Claim C4 as amended: field resolution walks the candidate names in
order and takes the first usable value — for string fields a non-empty
string, for numeric fields a number (any, including 0) or a string whose
parse after stripping everything but digits and `.` is strictly positive —
treating everything else as absent; earlier names always win, as the two
concrete conjuncts exercise. -/
theorem C4_amended_first_usable_field :
    (∀ (obj : Value) (names : List String),
       DataParser.extractStringField obj names = specStringField obj names) ∧
    (∀ (obj : Value) (names : List String),
       DataParser.extractNumberField obj names = amendedNumberFieldSpec obj names) ∧
    DataParser.extractStringField
        (Value.vObj [("orderNumber", Value.vStr "A1"), ("orderId", Value.vStr "B2")])
        ["orderNumber", "orderId"] = some "A1" ∧
    DataParser.extractNumberField
        (Value.vObj [("orderTotal", Value.vStr "abc"), ("total", Value.vNum 7)])
        ["orderTotal", "total"] = some 7 := by
  refine ⟨?_, ?_, rfl, rfl⟩
  · intro obj names
    induction names with
    | nil => rfl
    | cons f fs ih =>
      simp only [DataParser.extractStringField, specStringField, List.findSome?_cons] at *
      cases h : propGet obj f with
      | vStr s =>
        by_cases he : s = ""
        · subst he; simpa using ih
        · have : 0 < s.length := (string_length_pos_iff s).mpr he
          simp [this, he]
      | vUndefined => simpa using ih
      | vNull => simpa using ih
      | vBool b => simpa using ih
      | vNum q => simpa using ih
      | vArr xs => simpa using ih
      | vObj fs2 => simpa using ih
  · intro obj names
    induction names with
    | nil => rfl
    | cons f fs ih =>
      simp only [DataParser.extractNumberField, amendedNumberFieldSpec, List.findSome?_cons] at *
      cases h : propGet obj f with
      | vStr s =>
        by_cases hp : 0 < DataParser.parsePrice s
        · simp [hp]
        · simp [hp, ih]
      | vUndefined => simpa using ih
      | vNull => simpa using ih
      | vBool b => simpa using ih
      | vNum q => simp
      | vArr xs => simpa using ih
      | vObj fs2 => simpa using ih

/-- Claim C6: quantity extraction tries `QUANTITY`, `QUANTITY_X`,
`QUANTITY_PARENS` in that order, keeps a match only when `0 < N < 100`,
and defaults to 1; in particular `"Multipack Quantity: 175"` yields 1. -/
theorem C6_quantity_patterns_and_bound :
    (∀ s : String, DataParser.extractQuantityFromText s = quantitySpecFn s) ∧
    DataParser.extractQuantityFromText "Multipack Quantity: 175" = 1 := by
  refine ⟨?_, rfl⟩
  intro s
  unfold DataParser.extractQuantityFromText quantitySpecFn
  simp only [List.filterMap]
  cases h1 : findFirstMap quantityAt s.data with
  | some ds =>
    by_cases hb : 0 < digitsToNat ds ∧ digitsToNat ds < 100
    · simp [hb]
    · cases h2 : quantityXAt s.data with
      | some ds2 =>
        by_cases hb2 : 0 < digitsToNat ds2 ∧ digitsToNat ds2 < 100
        · simp [hb, hb2]
        · cases h3 : findFirstMap quantityParensCore s.data with
          | some ds3 =>
            by_cases hb3 : 0 < digitsToNat ds3 ∧ digitsToNat ds3 < 100
            · simp [hb, hb2, hb3]
            · simp [hb, hb2, hb3]
          | none => simp [hb, hb2]
      | none =>
        cases h3 : findFirstMap quantityParensCore s.data with
        | some ds3 =>
          by_cases hb3 : 0 < digitsToNat ds3 ∧ digitsToNat ds3 < 100
          · simp [hb, hb3]
          · simp [hb, hb3]
        | none => simp [hb]
  | none =>
    cases h2 : quantityXAt s.data with
    | some ds2 =>
      by_cases hb2 : 0 < digitsToNat ds2 ∧ digitsToNat ds2 < 100
      · simp [hb2]
      · cases h3 : findFirstMap quantityParensCore s.data with
        | some ds3 =>
          by_cases hb3 : 0 < digitsToNat ds3 ∧ digitsToNat ds3 < 100
          · simp [hb2, hb3]
          · simp [hb2, hb3]
        | none => simp [hb2]
    | none =>
      cases h3 : findFirstMap quantityParensCore s.data with
      | some ds3 =>
        by_cases hb3 : 0 < digitsToNat ds3 ∧ digitsToNat ds3 < 100
        · simp [hb3]
        · simp [hb3]
      | none => simp

/-- Claim C7: a raw order is accepted exactly when `orderNumber` and
`orderDate` are both non-empty strings (the concrete conjunct shows an
order rejected solely for its missing `orderDate`); an item is accepted
exactly when its name is a string of length > 3 that is not a filtered
keyword; and a rejected element is dropped from the batch without
disturbing its siblings, both for orders and for items. -/
theorem C7_validator_accepts_iff :
    (∀ v : Value, OrderService.isValidOrder v = true ↔
       ((∃ s : String, propGet v "orderNumber" = Value.vStr s ∧ s ≠ "") ∧
        (∃ s : String, propGet v "orderDate" = Value.vStr s ∧ s ≠ ""))) ∧
    OrderService.isValidOrder (Value.vObj
      [("orderNumber", Value.vStr "200013724127732"), ("orderTotal", Value.vNum 99),
       ("tax", Value.vNum 8), ("items", Value.vArr [])]) = false ∧
    (∀ v : Value, OrderService.isValidItem v = true ↔
       (∃ s : String, propGet v "name" = Value.vStr s ∧ 3 < s.length ∧
          OrderService.isFilteredProductName s = false)) ∧
    (∀ (l₁ l₂ : List Value) (b : Value),
       OrderService.validateAndCleanOrders (l₁ ++ b :: l₂) =
         OrderService.validateAndCleanOrders l₁ ++
           (if OrderService.isValidOrder b then [b] else []) ++
           OrderService.validateAndCleanOrders l₂) ∧
    (∀ (l₁ l₂ : List Value) (b : Value),
       OrderService.formatItems (l₁ ++ b :: l₂) =
         OrderService.formatItems l₁ ++
           (if OrderService.isValidItem b then [OrderService.formatOneItem b] else []) ++
           OrderService.formatItems l₂) := by
  refine ⟨?_, rfl, ?_, ?_, ?_⟩
  · intro v
    cases v with
    | vObj fs =>
      have hc : (truthy (Value.vObj fs) && isObjectType (Value.vObj fs)) = true := rfl
      unfold OrderService.isValidOrder
      rw [if_pos hc, Bool.and_eq_true]
      constructor
      · rintro ⟨h1, h2⟩
        constructor
        · cases hx : propGet (Value.vObj fs) "orderNumber" with
          | vStr s =>
            rw [hx] at h1
            exact ⟨s, rfl, (string_length_pos_iff s).mp (by simpa using h1)⟩
          | vUndefined => rw [hx] at h1; simp at h1
          | vNull => rw [hx] at h1; simp at h1
          | vBool b => rw [hx] at h1; simp at h1
          | vNum q => rw [hx] at h1; simp at h1
          | vArr xs => rw [hx] at h1; simp at h1
          | vObj fs2 => rw [hx] at h1; simp at h1
        · cases hx : propGet (Value.vObj fs) "orderDate" with
          | vStr s =>
            rw [hx] at h2
            exact ⟨s, rfl, (string_length_pos_iff s).mp (by simpa using h2)⟩
          | vUndefined => rw [hx] at h2; simp at h2
          | vNull => rw [hx] at h2; simp at h2
          | vBool b => rw [hx] at h2; simp at h2
          | vNum q => rw [hx] at h2; simp at h2
          | vArr xs => rw [hx] at h2; simp at h2
          | vObj fs2 => rw [hx] at h2; simp at h2
      · rintro ⟨⟨s1, hs1, hn1⟩, ⟨s2, hs2, hn2⟩⟩
        rw [hs1, hs2]
        exact ⟨by simpa using (string_length_pos_iff s1).mpr hn1,
               by simpa using (string_length_pos_iff s2).mpr hn2⟩
    | vArr xs =>
      have h1 : propGet (Value.vArr xs) "orderNumber" = Value.vUndefined := rfl
      have h2 : propGet (Value.vArr xs) "orderDate" = Value.vUndefined := rfl
      simp [OrderService.isValidOrder, truthy, isObjectType, h1, h2]
    | vUndefined => simp [OrderService.isValidOrder, truthy, propGet]
    | vNull => simp [OrderService.isValidOrder, truthy, propGet]
    | vBool b => simp [OrderService.isValidOrder, truthy, isObjectType, propGet]
    | vNum q => simp [OrderService.isValidOrder, truthy, isObjectType, propGet]
    | vStr s => simp [OrderService.isValidOrder, truthy, isObjectType, propGet]
  · intro v
    cases v with
    | vObj fs =>
      have hc : (truthy (Value.vObj fs) && isObjectType (Value.vObj fs)) = true := rfl
      unfold OrderService.isValidItem
      rw [if_pos hc]
      cases hx : propGet (Value.vObj fs) "name" with
      | vStr s =>
        constructor
        · intro h
          simp only [Bool.and_eq_true, decide_eq_true_eq] at h
          exact ⟨s, rfl, h.1, by simpa using h.2⟩
        · rintro ⟨s2, hs2, hl, hf⟩
          have he : s2 = s := by cases hs2; rfl
          subst he
          simp [hl, hf]
      | vUndefined => simp
      | vNull => simp
      | vBool b => simp
      | vNum q => simp
      | vArr ys => simp
      | vObj fs2 => simp
    | vArr xs =>
      have h1 : propGet (Value.vArr xs) "name" = Value.vUndefined := rfl
      simp [OrderService.isValidItem, truthy, isObjectType, h1]
    | vUndefined => simp [OrderService.isValidItem, truthy, propGet]
    | vNull => simp [OrderService.isValidItem, truthy, propGet]
    | vBool b => simp [OrderService.isValidItem, truthy, isObjectType, propGet]
    | vNum q => simp [OrderService.isValidItem, truthy, isObjectType, propGet]
    | vStr s => simp [OrderService.isValidItem, truthy, isObjectType, propGet]
  · intro l₁ l₂ b
    simp only [OrderService.validateAndCleanOrders, List.filter_append, List.filter_cons]
    by_cases h : OrderService.isValidOrder b <;> simp [h]
  · intro l₁ l₂ b
    simp only [OrderService.formatItems, List.filter_append, List.filter_cons]
    by_cases h : OrderService.isValidItem b <;> simp [h]

/-- `tryOrderArray` only succeeds with a non-empty list. -/
theorem tryOrderArray_nonempty {xs : List Value} {l : List DataParser.Order}
    (h : DataParser.tryOrderArray xs = some l) : l ≠ [] := by
  unfold DataParser.tryOrderArray at h
  split at h
  · cases h
    rename_i hl
    exact List.length_pos.mp hl
  · cases h

/-- Same for `tryArrayField`. -/
theorem tryArrayField_nonempty {v : Value} {l : List DataParser.Order}
    (h : DataParser.tryArrayField v = some l) : l ≠ [] := by
  unfold DataParser.tryArrayField at h
  revert h
  cases v <;> intro h <;> first | cases h | exact tryOrderArray_nonempty h

/-- `findSome?` preserves "every success is non-empty". -/
theorem findSomeNonempty {α β : Type} (f : α → Option (List β))
    (hf : ∀ a l, f a = some l → l ≠ []) :
    ∀ (ks : List α) (l : List β), ks.findSome? f = some l → l ≠ [] := by
  intro ks
  induction ks with
  | nil => intro l h; cases h
  | cons k ks ih =>
    intro l h
    rw [List.findSome?_cons] at h
    cases hk : f k with
    | some l2 => rw [hk] at h; cases h; exact hf k _ hk
    | none => rw [hk] at h; exact ih l h

theorem tryDataValue_nonempty (data : Value) (l : List DataParser.Order)
    (h : DataParser.tryDataValue data = some l) : l ≠ [] := by
  unfold DataParser.tryDataValue at h
  split at h
  · split at h
    · exact tryOrderArray_nonempty h
    · exact findSomeNonempty _ (fun a l2 h2 => tryArrayField_nonempty h2) _ _ h
    · cases h
  · cases h

/-- The non-array branch of the fuzzy-key loop only succeeds non-empty. -/
theorem fuzzyElse_nonempty {v : Value} {l : List DataParser.Order}
    (h : (if truthy v && isObjectType v then
            (keysOf v).findSome? (fun subKey => DataParser.tryArrayField (propGet v subKey))
          else none) = some l) : l ≠ [] := by
  split at h
  · exact findSomeNonempty _ (fun a l2 h2 => tryArrayField_nonempty h2) _ _ h
  · cases h

theorem tryFuzzyValue_nonempty (value : Value) (l : List DataParser.Order)
    (h : DataParser.tryFuzzyValue value = some l) : l ≠ [] := by
  unfold DataParser.tryFuzzyValue at h
  cases value with
  | vArr xs => exact tryOrderArray_nonempty h
  | vUndefined => exact fuzzyElse_nonempty h
  | vNull => exact fuzzyElse_nonempty h
  | vBool b => exact fuzzyElse_nonempty h
  | vNum q => exact fuzzyElse_nonempty h
  | vStr s => exact fuzzyElse_nonempty h
  | vObj fs => exact fuzzyElse_nonempty h

theorem tryPageProps_nonempty (pageProps : Value) (l : List DataParser.Order)
    (h : DataParser.tryPageProps pageProps = some l) : l ≠ [] := by
  unfold DataParser.tryPageProps at h
  split at h
  · rename_i o ho
    cases h
    revert ho
    split
    · intro ho
      exact findSomeNonempty _ (fun a l2 h2 => tryFuzzyValue_nonempty _ _ h2) _ _ ho
    · intro ho; cases ho
  · split at h
    · split at h
      · exact findSomeNonempty _ (fun a l2 h2 => tryArrayField_nonempty h2) _ _ h
      · cases h
    · cases h

theorem parseNextData_some_nonempty (v : Value) (l : List DataParser.Order)
    (h : DataParser.parseNextData v = some l) : l ≠ [] := by
  unfold DataParser.parseNextData at h
  split at h
  · split at h
    · rename_i o ho
      cases h
      exact findSomeNonempty _ (fun a l2 h2 => tryDataValue_nonempty _ _ h2) _ _ ho
    · split at h
      · exact tryPageProps_nonempty _ _ h
      · cases h
  · cases h

/-- Claim C10: `parseNextData` never returns an empty array — its result is
`null` or holds at least one parsed order. -/
theorem C10_parseNextData_null_or_nonempty (v : Value) :
    DataParser.parseNextData v = none ∨
      ∃ l, DataParser.parseNextData v = some l ∧ l ≠ [] := by
  cases h : DataParser.parseNextData v with
  | none => exact Or.inl rfl
  | some l => exact Or.inr ⟨l, rfl, parseNextData_some_nonempty v l h⟩

/-- `findSome?` over a list split at the first success: the earlier
entries all fail, the distinguished entry succeeds, the later entries are
irrelevant. -/
theorem findSome_append_first {α β : Type} (f : α → Option β) :
    ∀ (p₁ : List α) (a : α) (p₂ : List α) (b : β),
      (∀ q ∈ p₁, f q = none) → f a = some b →
      (p₁ ++ a :: p₂).findSome? f = some b := by
  intro p₁
  induction p₁ with
  | nil =>
    intro a p₂ b h1 h2
    rw [List.nil_append, List.findSome?_cons, h2]
  | cons q qs ih =>
    intro a p₂ b h1 h2
    rw [List.cons_append, List.findSome?_cons, h1 q (List.mem_cons_self q qs)]
    exact ih a p₂ b (fun r hr => h1 r (List.mem_cons_of_mem q hr)) h2

/-- The path probe yields `none` exactly when the path value is no array. -/
theorem reduxPathProbe_none {state : Value} {q : List String}
    (h : ∀ ys : List Value, DataParser.getNestedValue state q ≠ Value.vArr ys) :
    DataParser.reduxPathProbe state q = none := by
  unfold DataParser.reduxPathProbe
  cases hv : DataParser.getNestedValue state q with
  | vArr ys => exact absurd hv (h ys)
  | vUndefined => rfl
  | vNull => rfl
  | vBool b => rfl
  | vNum n => rfl
  | vStr s => rfl
  | vObj fs => rfl

/-- Claim C5 as amended, the part that holds: `parseReduxState` takes the
*first* configured path whose terminal value is an array — wherever that
path sits in the priority list, provided no earlier configured path
resolves to an array — and returns its parse immediately: later configured
paths and any fuzzy data are never consulted, even when the parse keeps no
order. -/
theorem C5_amended_redux_first_path (state : Value) (p₁ p₂ : List (List String))
    (path : List String) (xs : List Value)
    (hsplit : DataParser.reduxPossiblePaths = p₁ ++ path :: p₂)
    (hearlier : ∀ q ∈ p₁, ∀ ys : List Value,
      DataParser.getNestedValue state q ≠ Value.vArr ys)
    (hpath : DataParser.getNestedValue state path = Value.vArr xs) :
    DataParser.parseReduxState state = some (DataParser.parseOrderArray xs) := by
  have hsome : DataParser.reduxPathProbe state path = some xs := by
    unfold DataParser.reduxPathProbe
    rw [hpath]
  unfold DataParser.parseReduxState
  rw [hsplit, findSome_append_first (DataParser.reduxPathProbe state) p₁ path p₂ xs
    (fun q hq => reduxPathProbe_none (hearlier q hq)) hsome]

/-- Witness for `C5_amended_redux_first_path`: the first configured path
(`orders.data`) does not resolve, the second (`account.orders`) holds an
array whose single element is an invalid order, and a later path
(`orderHistory.orders`) holds a valid one — the result is still the
(empty) parse of the first array found. -/
theorem C5_amended_redux_first_path_witness :
    DataParser.parseReduxState (Value.vObj
      [("account", Value.vObj [("orders", Value.vArr [Value.vObj []])]),
       ("orderHistory", Value.vObj [("orders", Value.vArr [Value.vObj
         [("orderNumber", Value.vStr "B7"), ("orderDate", Value.vStr "Feb 2, 2024")]])])]) =
      some (DataParser.parseOrderArray [Value.vObj []]) :=
  C5_amended_redux_first_path _
    [["orders", "data"]]
    [["orderHistory", "orders"], ["data", "orders"],
     ["props", "pageProps", "initialData", "orders"]]
    ["account", "orders"] [Value.vObj []]
    rfl
    (by
      intro q hq ys h
      rw [List.mem_singleton] at hq
      subst hq
      rw [show DataParser.getNestedValue (Value.vObj
        [("account", Value.vObj [("orders", Value.vArr [Value.vObj []])]),
         ("orderHistory", Value.vObj [("orders", Value.vArr [Value.vObj
           [("orderNumber", Value.vStr "B7"),
            ("orderDate", Value.vStr "Feb 2, 2024")]])])])
        ["orders", "data"] = Value.vUndefined from rfl] at h
      exact Value.noConfusion h)
    rfl

/-- `foldl max` stays in the list (or is the seed). -/
theorem foldl_max_mem (qs : List ℚ) : ∀ q : ℚ, qs.foldl max q = q ∨ qs.foldl max q ∈ qs := by
  induction qs with
  | nil => intro q; exact Or.inl rfl
  | cons a as ih =>
    intro q
    rw [List.foldl_cons]
    rcases ih (max q a) with h | h
    · rcases max_cases q a with ⟨he, _⟩ | ⟨he, _⟩
      · exact Or.inl (h.trans he)
      · exact Or.inr (by rw [h, he]; exact List.mem_cons_self a as)
    · exact Or.inr (List.mem_cons_of_mem a h)

/-- `foldl max` bounds the seed and every element. -/
theorem foldl_max_bound (qs : List ℚ) :
    ∀ q : ℚ, q ≤ qs.foldl max q ∧ ∀ p ∈ qs, p ≤ qs.foldl max q := by
  induction qs with
  | nil => intro q; exact ⟨le_refl q, by simp⟩
  | cons a as ih =>
    intro q
    rw [List.foldl_cons]
    rcases ih (max q a) with ⟨h1, h2⟩
    refine ⟨le_trans (le_max_left q a) h1, ?_⟩
    intro p hp
    rcases List.mem_cons.mp hp with rfl | hp2
    · exact le_trans (le_max_right q p) h1
    · exact h2 p hp2

/-- Claim C3: when neither the explicit `ORDER_TOTAL` pattern nor any of the
three alternative total phrasings matches anywhere in the text,
`extractTotalFromText` returns `undefined` exactly when the text has no
`PRICE` match at all, and otherwise the maximum of all matched dollar
amounts. -/
theorem C3_total_fallback_is_max (t : String)
    (h1 : findFirstMap orderTotalAt t.data = none)
    (h2 : findFirstMap totalAlt1At t.data = none)
    (h3 : findFirstMap totalAlt2At t.data = none)
    (h4 : findFirstMap totalAlt3At t.data = none) :
    (DataParser.extractTotalFromText t = none ↔ priceCaptures t.data = []) ∧
    ∀ q, DataParser.extractTotalFromText t = some q →
      q ∈ (priceCaptures t.data).map DataParser.parsePriceL ∧
      ∀ p ∈ (priceCaptures t.data).map DataParser.parsePriceL, p ≤ q := by
  unfold DataParser.extractTotalFromText
  rw [h1, h2, h3, h4]
  cases hc : priceCaptures t.data with
  | nil => simp
  | cons c cs =>
    simp only [List.map_cons]
    constructor
    · simp
    · intro q hq
      cases hq
      constructor
      · rcases foldl_max_mem (cs.map DataParser.parsePriceL) (DataParser.parsePriceL c) with h | h
        · rw [h]; exact List.mem_cons_self _ _
        · exact List.mem_cons_of_mem _ h
      · intro p hp
        rcases foldl_max_bound (cs.map DataParser.parsePriceL) (DataParser.parsePriceL c) with ⟨hb1, hb2⟩
        rcases List.mem_cons.mp hp with rfl | hp2
        · exact hb1
        · exact hb2 p hp2

/-- Witness for `C3_total_fallback_is_max` at a text with two plain prices
and no total phrasing: the result is the larger price. -/
theorem C3_total_fallback_is_max_witness :
    (findFirstMap orderTotalAt (String.data "a $5.99 b $59.90") = none ∧
     findFirstMap totalAlt1At (String.data "a $5.99 b $59.90") = none ∧
     findFirstMap totalAlt2At (String.data "a $5.99 b $59.90") = none ∧
     findFirstMap totalAlt3At (String.data "a $5.99 b $59.90") = none) ∧
    ((DataParser.extractTotalFromText "a $5.99 b $59.90" = none ↔
        priceCaptures (String.data "a $5.99 b $59.90") = []) ∧
     ∀ q, DataParser.extractTotalFromText "a $5.99 b $59.90" = some q →
       q ∈ (priceCaptures (String.data "a $5.99 b $59.90")).map DataParser.parsePriceL ∧
       ∀ p ∈ (priceCaptures (String.data "a $5.99 b $59.90")).map DataParser.parsePriceL, p ≤ q) :=
  ⟨⟨rfl, rfl, rfl, rfl⟩,
   C3_total_fallback_is_max "a $5.99 b $59.90" rfl rfl rfl rfl⟩

/-! ### The cleanup pipeline on plain alphabetic names (claim C9) -/

/-- A successful literal match leaves a suffix of the input. -/
theorem stripCI_suffix : ∀ (pat l r : List Char), stripCI pat l = some r → r <:+ l := by
  intro pat
  induction pat with
  | nil =>
    intro l r h
    cases h
    exact List.suffix_refl _
  | cons p ps ih =>
    intro l r h
    cases l with
    | nil => cases h
    | cons c cs =>
      unfold stripCI at h
      split at h
      · exact (ih cs r h).trans (List.suffix_cons c cs)
      · cases h

/-- A successful literal match puts, for every pattern character, a
case-insensitively equal character in the input. -/
theorem stripCI_char : ∀ (pat l r : List Char), stripCI pat l = some r →
    ∀ p ∈ pat, ∃ c ∈ l, charCI c p = true := by
  intro pat
  induction pat with
  | nil =>
    intro l r h p hp
    cases hp
  | cons p0 ps ih =>
    intro l r h p hp
    cases l with
    | nil => cases h
    | cons c cs =>
      unfold stripCI at h
      split at h
      · rename_i hci
        rcases List.mem_cons.mp hp with rfl | hp2
        · exact ⟨c, List.mem_cons_self c cs, hci⟩
        · obtain ⟨c2, hc2, hc2ci⟩ := ih cs r h p hp2
          exact ⟨c2, List.mem_cons_of_mem c hc2, hc2ci⟩
      · cases h

/-- An ASCII letter lower-cases into `[97, 122]`. -/
theorem lowerNat_letter {c : Char} (hc : isAsciiLetter c = true) :
    97 ≤ lowerNat c.toNat ∧ lowerNat c.toNat ≤ 122 := by
  simp only [isAsciiLetter, Bool.or_eq_true, Bool.and_eq_true, decide_eq_true_eq] at hc
  unfold lowerNat
  split <;> omega

theorem letter_not_space {c : Char} (hc : isAsciiLetter c = true) : isJsSpace c = false := by
  cases hb : isJsSpace c
  · rfl
  · exfalso
    simp only [isAsciiLetter, Bool.or_eq_true, Bool.and_eq_true, decide_eq_true_eq] at hc
    simp only [isJsSpace, Bool.or_eq_true, Bool.and_eq_true, decide_eq_true_eq] at hb
    omega

theorem letter_not_digit {c : Char} (hc : isAsciiLetter c = true) : isDigitCh c = false := by
  cases hb : isDigitCh c
  · rfl
  · exfalso
    simp only [isAsciiLetter, Bool.or_eq_true, Bool.and_eq_true, decide_eq_true_eq] at hc
    simp only [isDigitCh, Bool.and_eq_true, decide_eq_true_eq] at hb
    omega

/-- A letter is never case-insensitively equal to a character that
lower-cases outside `[97, 122]`. -/
theorem letter_charCI_false {c : Char} (d : Char) (hc : isAsciiLetter c = true)
    (hd : lowerNat d.toNat < 97 ∨ 122 < lowerNat d.toNat) : charCI c d = false := by
  cases hb : charCI c d
  · rfl
  · exfalso
    simp only [charCI, decide_eq_true_eq] at hb
    rcases lowerNat_letter hc with ⟨h1, h2⟩
    omega

theorem qtyNumTail_false {r : List Char} (h : ∀ c ∈ r, isAsciiLetter c = true) :
    qtyNumTail r = false := by
  cases r with
  | nil => rfl
  | cons c cs =>
    unfold qtyNumTail
    simp [List.takeWhile_cons, letter_not_space (h c (List.mem_cons_self c cs))]

theorem litThenQtyTail_false {pat l : List Char} (h : ∀ c ∈ l, isAsciiLetter c = true) :
    litThenQtyTail pat l = false := by
  unfold litThenQtyTail
  cases hs : stripCI pat l with
  | none => rfl
  | some r =>
    exact qtyNumTail_false (fun c hc => h c ((stripCI_suffix pat l r hs).subset hc))

theorem shoppedQtyAt_false : ∀ l : List Char, (∀ c ∈ l, isAsciiLetter c = true) →
    shoppedQtyAt l = false := by
  intro l
  induction l with
  | nil => intro h; rfl
  | cons c cs ih =>
    intro h
    unfold shoppedQtyAt shoppedQtyCore
    rw [litThenQtyTail_false h, litThenQtyTail_false h,
      letter_not_space (h c (List.mem_cons_self c cs)),
      ih (fun d hd => h d (List.mem_cons_of_mem c hd))]
    rfl

/-- A literal pattern containing a character that lower-cases outside the
letter range can never match inside an all-letter string. -/
theorem litToEnd_false {pat l : List Char}
    (hp : ∃ d ∈ pat, lowerNat d.toNat < 97 ∨ 122 < lowerNat d.toNat)
    (h : ∀ c ∈ l, isAsciiLetter c = true) : litToEnd pat l = false := by
  unfold litToEnd
  cases hs : stripCI pat l with
  | none => rfl
  | some r =>
    exfalso
    obtain ⟨d, hd, hrange⟩ := hp
    obtain ⟨c, hcl, hcd⟩ := stripCI_char pat l r hs d hd
    rw [letter_charCI_false d (h c hcl) hrange] at hcd
    cases hcd

theorem multipackAt_false : ∀ l : List Char, (∀ c ∈ l, isAsciiLetter c = true) →
    multipackAt l = false := by
  intro l h
  exact litToEnd_false ⟨' ', by decide, by decide⟩ h

theorem weightAdjustedAt_false : ∀ l : List Char, (∀ c ∈ l, isAsciiLetter c = true) →
    weightAdjustedAt l = false := by
  intro l h
  exact litToEnd_false ⟨'-', by decide, by decide⟩ h

theorem countAt_false : ∀ l : List Char, (∀ c ∈ l, isAsciiLetter c = true) →
    countAt l = false := by
  intro l h
  exact litToEnd_false ⟨':', by decide, by decide⟩ h

theorem priceEndAt_false : ∀ l : List Char, (∀ c ∈ l, isAsciiLetter c = true) →
    priceEndAt l = false := by
  intro l h
  cases l with
  | nil => rfl
  | cons c r =>
    have hc : c ≠ '$' := by
      intro e
      have hx := h c (List.mem_cons_self c r)
      rw [e] at hx
      exact absurd hx (by decide)
    unfold priceEndAt
    simp [hc]

theorem centsAt_false : ∀ l : List Char, (∀ c ∈ l, isAsciiLetter c = true) →
    centsAt l = false := by
  intro l h
  cases l with
  | nil => rfl
  | cons c cs =>
    have h1 : isDigitCh c = false := letter_not_digit (h c (List.mem_cons_self c cs))
    have h2 : c ≠ '.' := by
      intro e
      have hx := h c (List.mem_cons_self c cs)
      rw [e] at hx
      exact absurd hx (by decide)
    unfold centsAt
    simp [List.takeWhile_cons, h1, h2]

theorem wasMatchAt_none {l : List Char} (h : ∀ c ∈ l, isAsciiLetter c = true) :
    wasMatchAt l = none := by
  unfold wasMatchAt
  cases hs : stripCI ("Was").data l with
  | none => rfl
  | some r1 =>
    have hr : ∀ c ∈ r1, isAsciiLetter c = true :=
      fun c hc => h c ((stripCI_suffix _ l r1 hs).subset hc)
    cases r1 with
    | nil => rfl
    | cons c cs =>
      simp [List.takeWhile_cons, letter_not_space (hr c (List.mem_cons_self c cs))]

theorem wasReplAllFuel_id : ∀ (fuel : Nat) (l : List Char),
    (∀ c ∈ l, isAsciiLetter c = true) → wasReplAllFuel fuel l = l := by
  intro fuel
  induction fuel with
  | zero => intro l h; rfl
  | succ n ih =>
    intro l h
    cases l with
    | nil => rfl
    | cons c cs =>
      unfold wasReplAllFuel
      rw [wasMatchAt_none h]
      exact congrArg (c :: ·) (ih cs (fun d hd => h d (List.mem_cons_of_mem c hd)))

theorem wasReplAll_id {l : List Char} (h : ∀ c ∈ l, isAsciiLetter c = true) :
    wasReplAll l = l :=
  wasReplAllFuel_id l.length l h

theorem scanStrip_id (p : List Char → Bool)
    (hp : ∀ l2 : List Char, (∀ c ∈ l2, isAsciiLetter c = true) → p l2 = false) :
    ∀ l : List Char, (∀ c ∈ l, isAsciiLetter c = true) → scanStrip p l = l := by
  intro l
  induction l with
  | nil => intro h; rfl
  | cons c cs ih =>
    intro h
    unfold scanStrip
    rw [hp (c :: cs) h]
    simp only [Bool.false_eq_true, if_false]
    exact congrArg (c :: ·) (ih (fun d hd => h d (List.mem_cons_of_mem c hd)))

theorem dropWhile_ws_id {l : List Char} (h : ∀ c ∈ l, isAsciiLetter c = true) :
    l.dropWhile isJsSpace = l := by
  cases l with
  | nil => rfl
  | cons c cs =>
    simp [List.dropWhile_cons, letter_not_space (h c (List.mem_cons_self c cs))]

theorem trimList_id {l : List Char} (h : ∀ c ∈ l, isAsciiLetter c = true) :
    trimList l = l := by
  unfold trimList
  rw [dropWhile_ws_id h,
    dropWhile_ws_id (fun c hc => h c (List.mem_reverse.mp hc)),
    List.reverse_reverse]

theorem collapseWs_id : ∀ l : List Char, (∀ c ∈ l, isAsciiLetter c = true) →
    collapseWs l = l := by
  intro l
  induction l with
  | nil => intro h; rfl
  | cons c cs ih =>
    intro h
    unfold collapseWs
    rw [letter_not_space (h c (List.mem_cons_self c cs))]
    simp only [Bool.false_eq_true, if_false]
    exact congrArg (c :: ·) (ih (fun d hd => h d (List.mem_cons_of_mem c hd)))

/-- `includes` finds only characters that are really there. -/
theorem containsSub_mem : ∀ (l pat : List Char), containsSub l pat = true → ∀ c ∈ pat, c ∈ l := by
  intro l
  induction l with
  | nil =>
    intro pat h c hc
    cases pat with
    | nil => cases hc
    | cons p ps => cases h
  | cons a as ih =>
    intro pat h c hc
    unfold containsSub at h
    rcases Bool.or_eq_true_iff.mp h with h1 | h2
    · exact (List.isPrefixOf_iff_prefix.mp h1).subset hc
    · exact List.mem_cons_of_mem a (ih pat h2 c hc)

/-- On an all-letter string every cleanup replacement is the identity. -/
theorem cleanupPassDP_id {l : List Char} (h : ∀ c ∈ l, isAsciiLetter c = true) :
    DataParser.cleanupPassDP l = l := by
  unfold DataParser.cleanupPassDP
  rw [trimList_id h, scanStrip_id _ shoppedQtyAt_false _ h, trimList_id h,
    scanStrip_id _ multipackAt_false _ h, trimList_id h,
    scanStrip_id _ priceEndAt_false _ h, trimList_id h,
    scanStrip_id _ centsAt_false _ h, trimList_id h,
    scanStrip_id _ weightAdjustedAt_false _ h, trimList_id h,
    scanStrip_id _ countAt_false _ h, trimList_id h,
    wasReplAll_id h, trimList_id h]

/-- On all-letter names free of the (all-letter) filter keyword the
sanitizer is the identity. -/
theorem cleanProductName_id {s : String}
    (hl : ∀ c ∈ s.data, isAsciiLetter c = true)
    (hk : containsSub s.data ("ReorderListsRegistries").data = false) :
    DataParser.cleanProductName s = s := by
  unfold DataParser.cleanProductName
  by_cases he : s = ""
  · rw [if_pos he, he]
  · rw [if_neg he, cleanupPassDP_id hl]
    have hk2 : containsSub s.data ("Lists & Registries").data = false := by
      cases hb : containsSub s.data ("Lists & Registries").data
      · rfl
      · exfalso
        have hamp : '&' ∈ s.data := containsSub_mem _ _ hb '&' (by decide)
        exact absurd (hl '&' hamp) (by decide)
    rw [if_neg (by simp [DataParser.FILTER_KEYWORDS, hk, hk2])]
    rw [collapseWs_id _ hl, trimList_id hl]

/-- Claim C9 as amended: the sanitizer is not idempotent in general (the
keyword check precedes whitespace collapsing), but on names made only of
ASCII letters and not containing the filter keyword
`ReorderListsRegistries` it is the identity, hence idempotent. -/
theorem C9_amended_idempotent_on_plain_names (s : String)
    (hl : ∀ c ∈ s.data, isAsciiLetter c = true)
    (hk : containsSub s.data ("ReorderListsRegistries").data = false) :
    DataParser.cleanProductName (DataParser.cleanProductName s) =
      DataParser.cleanProductName s := by
  have h := cleanProductName_id hl hk
  rw [h]
  exact h

/-- Witness for `C9_amended_idempotent_on_plain_names` at the name
`"Apple"`. -/
theorem C9_amended_idempotent_witness :
    (∀ c ∈ ("Apple" : String).data, isAsciiLetter c = true) ∧
    containsSub ("Apple" : String).data ("ReorderListsRegistries").data = false ∧
    DataParser.cleanProductName (DataParser.cleanProductName "Apple") =
      DataParser.cleanProductName "Apple" :=
  ⟨by decide, by decide,
   C9_amended_idempotent_on_plain_names "Apple" (by decide) (by decide)⟩
